import Mathlib

/-!
Verification of the turbidity-classifier core: the image preprocessing
pipeline (center crop, gray-world balancing, ImageNet normalization) and the
deterministic scorer (tensor hash seed, mulberry32 generator,
brightness-centered logits, softmax, argmax result building).

Numbers are modelled exactly: pixel bytes as naturals, JavaScript number
arithmetic as rationals (reals where the exponential function is needed),
and the 32-bit integer operations of the hash and the generator as explicit
arithmetic modulo 2^32.
-/

namespace Turbidity

/-! ### Data model (src/types/turbidity.ts) -/

inductive TurbidityClass where
  | ultra_cloudy
  | very_cloudy
  | cloudy
  | lightly_cloudy
  | lightly_clear
  | clear
deriving DecidableEq, Repr

/-- Canonical class order; it defines the array indices used by the scorer. -/
def TURBIDITY_CLASSES : List TurbidityClass :=
  [.ultra_cloudy, .very_cloudy, .cloudy, .lightly_cloudy, .lightly_clear, .clear]

def TURBIDITY_LABELS : TurbidityClass → String
  | .ultra_cloudy => "Ultra Cloudy"
  | .very_cloudy => "Very Cloudy"
  | .cloudy => "Cloudy"
  | .lightly_cloudy => "Lightly Cloudy"
  | .lightly_clear => "Lightly Clear"
  | .clear => "Clear"

structure NtuRange where
  min : ℚ
  max : ℚ
deriving DecidableEq, Repr

def NTU_RANGES : TurbidityClass → NtuRange
  | .ultra_cloudy => ⟨3336.0, 3844.0⟩
  | .very_cloudy => ⟨1300.0, 2520.0⟩
  | .cloudy => ⟨600.0, 1200.0⟩
  | .lightly_cloudy => ⟨150.0, 450.0⟩
  | .lightly_clear => ⟨25.0, 90.0⟩
  | .clear => ⟨1.47, 17.13⟩

/-- `ClassProbability` with the probability field generic so that the result
builder can be stated once for rational and for real probabilities. -/
structure ClassProbability (α : Type) where
  className : TurbidityClass
  label : String
  probability : α
deriving DecidableEq

structure PredictionResult (α : Type) where
  predictedClass : TurbidityClass
  label : String
  confidence : α
  ntuRange : NtuRange
  probabilities : List (ClassProbability α)
deriving DecidableEq

/-! ### JavaScript number helpers -/

/-- `Math.round` on an exact rational: round half up. -/
def jsRound (x : ℚ) : ℤ := ⌊x + 1/2⌋

/-- `x | 0`: interpret an exact integer as a 32-bit two's-complement value. -/
def toInt32 (z : ℤ) : ℤ := (z + 2 ^ 31) % 2 ^ 32 - 2 ^ 31

/-! ### Preprocessing (src/services/preprocessing.ts) -/

def TARGET_SIZE : ℕ := 224
def RESIZE_SIZE : ℕ := 256

/-- ImageNet per-channel means, indexed by channel 0,1,2 = R,G,B. -/
def IMAGENET_MEAN : ℕ → ℚ
  | 0 => 0.485
  | 1 => 0.456
  | _ => 0.406

/-- ImageNet per-channel standard deviations. -/
def IMAGENET_STD : ℕ → ℚ
  | 0 => 0.229
  | 1 => 0.224
  | _ => 0.225

/-- Interface `PreprocessedImage`: the tensor together with the shape fields
(`channels` is pinned to 3 and `height`/`width` to 224 by the TS types). -/
structure PreprocessedImage where
  data : List ℚ
  channels : ℕ
  height : ℕ
  width : ℕ

/-- The decoded, resized raw RGB buffer (`sharp(...).raw().toBuffer` result):
interleaved bytes plus the reported width and height. -/
structure RawImage where
  data : List ℕ
  width : ℕ
  height : ℕ

/-- Sum of channel `c` of an interleaved RGB buffer: the source loops
`for (i = 0; i < length; i += 3)` reading `pixels[i+c]`, i.e. one read per
triple for `⌈length/3⌉` triples. -/
def chanSum (pixels : List ℕ) (c : ℕ) : ℕ :=
  ∑ j ∈ Finset.range ((pixels.length + 2) / 3), pixels.getD (3 * j + c) 0

/-- Per-channel mean plus epsilon: `sum / (length / 3) + 1e-6`
(`pixelCount` is the JavaScript float division `length / 3`). -/
def gwMean (pixels : List ℕ) (c : ℕ) : ℚ :=
  (chanSum pixels c : ℚ) / ((pixels.length : ℚ) / 3) + 1 / 1000000

/-- Gray-world scale factor for channel `c`: `overallMean / mean_c`. -/
def gwScale (pixels : List ℕ) (c : ℕ) : ℚ :=
  ((gwMean pixels 0 + gwMean pixels 1 + gwMean pixels 2) / 3) / gwMean pixels c

/-- `applyGrayWorld`: every output byte is
`min(255, max(0, round(pixel * scale_channel)))`; the source writes index
`i + c` inside a step-3 loop, i.e. output index `k` uses channel `k % 3`. -/
def applyGrayWorld (pixels : List ℕ) : List ℕ :=
  (List.range pixels.length).map fun k =>
    (min 255 (max 0 (jsRound ((pixels.getD k 0 : ℚ) * gwScale pixels (k % 3))))).toNat

/-- `Math.floor((width - TARGET_SIZE) / 2)` (the crop offsets). -/
def cropOffset (extent : ℕ) : ℕ := (extent - TARGET_SIZE) / 2

/-- The center-crop loop: row `y` of the output is the 224·3 consecutive
source bytes starting at `((cropTop + y) * width + cropLeft) * 3`. -/
def cropImage (src : List ℕ) (width height : ℕ) : List ℕ :=
  (List.range TARGET_SIZE).flatMap fun y =>
    (List.range (TARGET_SIZE * 3)).map fun k =>
      src.getD (((cropOffset height + y) * width + cropOffset width) * 3 + k) 0

def totalPixels : ℕ := TARGET_SIZE * TARGET_SIZE

/-- The normalization loop writes plane `c` of the channel-first tensor at
offset `c * totalPixels`, so the tensor is the concatenation of the three
per-channel planes. -/
def normalizeTensor (balanced : List ℕ) : List ℚ :=
  (List.range 3).flatMap fun c =>
    (List.range totalPixels).map fun i =>
      ((balanced.getD (i * 3 + c) 0 : ℚ) / 255 - IMAGENET_MEAN c) / IMAGENET_STD c

/-! ### Errors (src/types/errors.ts) -/

inductive ErrorCode where
  | VALIDATION_ERROR
  | INFERENCE_FAILED
  | IMAGE_PROCESSING_FAILED
  | INTERNAL_ERROR
deriving DecidableEq, Repr

structure AppError where
  message : String
  statusCode : ℕ
  code : ErrorCode
deriving DecidableEq, Repr

def AppError.imageProcessing (detail : String) : AppError :=
  ⟨"Image processing failed: " ++ detail, 422, .IMAGE_PROCESSING_FAILED⟩

/-- `preprocessImage`, with the external decode/resize call (`sharp`)
abstracted as its outcome: either a decoder error message or the decoded
256×256 raw buffer.  Everything after the decode is the pure pipeline
crop → gray-world → normalize. -/
def preprocessImage (decoded : Except String RawImage) : Except AppError PreprocessedImage :=
  match decoded with
  | .error msg => .error (AppError.imageProcessing msg)
  | .ok resized =>
    let cropped := cropImage resized.data resized.width resized.height
    let balanced := applyGrayWorld cropped
    .ok ⟨normalizeTensor balanced, 3, TARGET_SIZE, TARGET_SIZE⟩

/-! ### Deterministic scorer (src/services/classifier.ts) -/

/-- `hashTensor`: fold `hash = ((hash << 5) - hash + round((v + 3) * 10000)) | 0`
over the tensor samples at stride `max(1, ⌊length/256⌋)`; return `Math.abs`.
The loop `for (i = 0; i < length; i += step)` visits `⌈length/step⌉` indices
`j * step`.  `hash << 5` itself truncates to 32 bits, hence the inner
`toInt32` around `h * 32`. -/
def hashTensor (t : List ℚ) : ℤ :=
  let step := max 1 (t.length / 256)
  let iters := (t.length + step - 1) / step
  |((List.range iters).foldl
      (fun h j => toInt32 (toInt32 (h * 32) - h + jsRound ((t.getD (j * step) 0 + 3) * 10000)))
      0)|

/-- The spec's reading of the hash step: stride `max(1, ⌊length/256⌋)` sampling,
accumulation `hash = (hash << 5) - hash + round((value + 3) * 10000)` with one
32-bit signed wraparound applied at each step, absolute value at the end. -/
def hashTensorSpec (t : List ℚ) : ℤ :=
  let step := max 1 (t.length / 256)
  let samples := (List.range ((t.length + step - 1) / step)).map fun j => t.getD (j * step) 0
  |(samples.foldl (fun h v => toInt32 (h * 32 - h + jsRound ((v + 3) * 10000))) 0)|

/-- One step of the mulberry32 generator: next state and output in `[0,1)`.
All 32-bit quantities are kept as naturals below `2^32` (the bit patterns of
the JavaScript int32/uint32 values); `x >>> n` is `x / 2^n`, `Math.imul` is
multiplication mod `2^32`, and the additions wrap mod `2^32` when the result
is re-read as a 32-bit value. -/
def mulberry32 (s : ℕ) : ℕ × ℚ :=
  let s1 := (s + 0x6d2b79f5) % 2 ^ 32
  let t1 := (Nat.xor s1 (s1 / 2 ^ 15) * Nat.lor s1 1) % 2 ^ 32
  let t2 := Nat.xor ((t1 + Nat.xor t1 (t1 / 2 ^ 7) * Nat.lor t1 61 % 2 ^ 32) % 2 ^ 32) t1
  (s1, ((Nat.xor t2 (t2 / 2 ^ 14) : ℕ) : ℚ) / 2 ^ 32)

/-- The generator state after one call. -/
def nextState (s : ℕ) : ℕ := (mulberry32 s).1

/-- Output of the `(n+1)`-th call to a generator created with state `s`. -/
def rngNth (s : ℕ) (n : ℕ) : ℚ := (mulberry32 (nextState^[n] s)).2

/-- `Math.max(...logits)` for the nonempty lists the scorer produces. -/
def listMax : List ℚ → ℚ
  | [] => 0
  | a :: l => l.foldl max a

/-- Numerically-stable softmax over exact reals: subtract the max logit,
exponentiate, divide by the sum (`reduce((a, b) => a + b, 0)`). -/
noncomputable def softmax (logits : List ℚ) : List ℝ :=
  let m := listMax logits
  let exps := logits.map fun (v : ℚ) => Real.exp ((v : ℝ) - (m : ℝ))
  let sum := exps.foldl (· + ·) 0
  exps.map fun v => v / sum

/-- The denominator of the softmax: the sum of the shifted exponentials. -/
noncomputable def softmaxSum (l : List ℚ) : ℝ :=
  (l.map fun (v : ℚ) => Real.exp ((v : ℝ) - (listMax l : ℝ))).sum

/-- One iteration of the argmax fold of `buildResult`: update `(maxIdx, maxProb)`
only when `p > maxProb`; `none` stands for the initial `-Infinity`, which any
number beats. -/
def amStep {α : Type} [LinearOrder α] (pAt : ℕ → α) (acc : ℕ × Option α) (i : ℕ) :
    ℕ × Option α :=
  match acc.2 with
  | none => (i, some (pAt i))
  | some m => if m < pAt i then (i, some (pAt i)) else acc

/-- The argmax fold of `buildResult`: running `(maxIdx, maxProb)` over indices
`0..n-1`, starting from `maxIdx = 0, maxProb = -Infinity`. -/
def buildArgmax {α : Type} [LinearOrder α] (pAt : ℕ → α) (n : ℕ) : ℕ × Option α :=
  (List.range n).foldl (amStep pAt) (0, none)

/-- The `maxIdx` selected by `buildResult` for a given probability vector. -/
def maxIdxOf {α : Type} [LinearOrder α] [Zero α] (probs : List α) : ℕ :=
  (buildArgmax (fun i => probs.getD i 0) TURBIDITY_CLASSES.length).1

/-- `buildResult`: probabilities in canonical class order (`probs[i] ?? 0`),
argmax with first occurrence winning ties, and the matching label and NTU
range for the predicted class. -/
def buildResult {α : Type} [LinearOrder α] [Zero α] (probs : List α) : PredictionResult α :=
  let pAt : ℕ → α := fun i => probs.getD i 0
  let am := buildArgmax pAt TURBIDITY_CLASSES.length
  let predicted := TURBIDITY_CLASSES.getD am.1 .ultra_cloudy
  { predictedClass := predicted
    label := TURBIDITY_LABELS predicted
    confidence := am.2.getD 0
    ntuRange := NTU_RANGES predicted
    probabilities :=
      (List.range TURBIDITY_CLASSES.length).map fun i =>
        ⟨TURBIDITY_CLASSES.getD i .ultra_cloudy,
         TURBIDITY_LABELS (TURBIDITY_CLASSES.getD i .ultra_cloudy), pAt i⟩ }

/-- Mean reconstructed brightness of `predict`: per channel, average
`value * std[c] + mean[c]` over `height * width` positions of plane `c`,
then average the three channel means. -/
def brightnessOf (im : PreprocessedImage) : ℚ :=
  let tp := im.height * im.width
  (∑ c ∈ Finset.range 3,
      (∑ i ∈ Finset.range tp, (im.data.getD (c * tp + i) 0 * IMAGENET_STD c + IMAGENET_MEAN c))
        / (tp : ℚ)) / 3

/-- `center = Math.min(classCount - 1, Math.max(0, Math.round((1 - brightness) * (classCount - 1))))`. -/
def centerOf (im : PreprocessedImage) : ℤ :=
  min ((TURBIDITY_CLASSES.length : ℤ) - 1)
    (max 0 (jsRound ((1 - brightnessOf im) * ((TURBIDITY_CLASSES.length : ℚ) - 1))))

/-- Initial generator state: `createRng(hashTensor(data))` does `s = seed | 0`;
as a bit pattern that is the seed reduced mod `2^32`. -/
def rngInitOf (im : PreprocessedImage) : ℕ :=
  (hashTensor im.data).toNat % 2 ^ 32

/-- The logits map with the stateful generator threaded through: element at
index `i0 + k` is `-|i - center| * 1.8 + (rng() - 0.5) * 0.3`, one generator
call per element. -/
def mkLogits (center : ℤ) : ℕ → ℕ → ℕ → List ℚ
  | _, _, 0 => []
  | s, i, n + 1 =>
    (-((|(i : ℤ) - center| : ℤ) : ℚ) * 1.8 + ((mulberry32 s).2 - 0.5) * 0.3)
      :: mkLogits center (mulberry32 s).1 (i + 1) n

def predictLogits (im : PreprocessedImage) : List ℚ :=
  mkLogits (centerOf im) (rngInitOf im) 0 TURBIDITY_CLASSES.length

noncomputable def predictProbs (im : PreprocessedImage) : List ℝ :=
  softmax (predictLogits im)

/-- `predict`: brightness-centered logits with seeded jitter, softmax,
result building. -/
noncomputable def predict (im : PreprocessedImage) : PredictionResult ℝ :=
  buildResult (predictProbs im)

/-- A uniform tensor whose entries are all `q` (the shape the 224×224 pipeline
produces), used to probe the brightness-to-center mapping. -/
def uniformImage (q : ℚ) : PreprocessedImage :=
  ⟨List.replicate (3 * (224 * 224)) q, 3, 224, 224⟩

/-! ### List access helpers -/

theorem getD_append_left {α : Type} {l r : List α} {i : ℕ} (h : i < l.length) (d : α) :
    (l ++ r).getD i d = l.getD i d := by
  simp [List.getD_eq_getElem?_getD, List.getElem?_append, h]

theorem getD_append_right {α : Type} {l r : List α} {i : ℕ} (h : l.length ≤ i) (d : α) :
    (l ++ r).getD i d = r.getD (i - l.length) d := by
  simp [List.getD_eq_getElem?_getD, List.getElem?_append, Nat.not_lt.mpr h]

theorem getD_map_range {α : Type} {n i : ℕ} (f : ℕ → α) (h : i < n) (d : α) :
    ((List.range n).map f).getD i d = f i := by
  simp [List.getD_eq_getElem?_getD, List.getElem?_map, List.getElem?_range h]

theorem getD_replicate {α : Type} {n k : ℕ} (a : α) (hk : k < n) (d : α) :
    (List.replicate n a).getD k d = a := by
  simp [List.getD_eq_getElem?_getD, List.getElem?_replicate, hk]

theorem flatMap_range_length {α : Type} (n m : ℕ) (f : ℕ → List α)
    (h : ∀ i, (f i).length = m) : ((List.range n).flatMap f).length = n * m := by
  induction n with
  | zero => simp
  | succ k ih =>
    rw [List.range_succ, List.flatMap_append, List.length_append, ih]
    simp [h, Nat.succ_mul]

theorem flatMap_range_getD {α : Type} (n m : ℕ) (f : ℕ → List α)
    (h : ∀ i, (f i).length = m) {y k : ℕ} (hy : y < n) (hk : k < m) (d : α) :
    ((List.range n).flatMap f).getD (y * m + k) d = (f y).getD k d := by
  induction n with
  | zero => omega
  | succ p ih =>
    rw [List.range_succ, List.flatMap_append, List.flatMap_singleton]
    rcases Nat.lt_or_ge y p with hyp | hyp
    · have hlen : y * m + k < ((List.range p).flatMap f).length := by
        rw [flatMap_range_length p m f h]
        calc y * m + k < y * m + m := by omega
          _ = (y + 1) * m := by ring
          _ ≤ p * m := Nat.mul_le_mul_right m hyp
      rw [getD_append_left hlen, ih hyp]
    · have hyeq : y = p := by omega
      subst hyeq
      have hlen : ((List.range y).flatMap f).length ≤ y * m + k := by
        rw [flatMap_range_length y m f h]
        omega
      rw [getD_append_right hlen, flatMap_range_length y m f h]
      congr 1
      omega

theorem map_range_getD_self {α : Type} (l : List α) (d : α) :
    (List.range l.length).map (fun i => l.getD i d) = l := by
  apply List.ext_getElem
  · simp
  · intro i h1 h2
    simp only [List.getElem_map, List.getElem_range]
    rw [List.getD_eq_getElem?_getD, List.getElem?_eq_getElem h2]
    rfl

theorem foldl_add_eq_sum (l : List ℝ) : l.foldl (· + ·) 0 = l.sum := by
  rw [List.sum_eq_foldl]

theorem list_sum_map_div (l : List ℝ) (s : ℝ) :
    (l.map fun v => v / s).sum = l.sum / s := by
  induction l with
  | nil => simp
  | cons a t ih => simp [ih, add_div]

/-! ### 32-bit arithmetic helpers -/

theorem toInt32_emod_eq (a b : ℤ) (h : a % 2 ^ 32 = b % 2 ^ 32) : toInt32 a = toInt32 b := by
  unfold toInt32
  have : (a + 2 ^ 31) % 2 ^ 32 = (b + 2 ^ 31) % 2 ^ 32 := by
    rw [Int.add_emod, h, ← Int.add_emod]
  rw [this]

theorem toInt32_idem_add (a b : ℤ) : toInt32 (toInt32 a + b) = toInt32 (a + b) := by
  apply toInt32_emod_eq
  conv_rhs => rw [Int.add_emod]
  rw [Int.add_emod (toInt32 a) b]
  congr 1
  congr 1
  unfold toInt32
  rw [Int.sub_emod, Int.emod_emod_of_dvd _ (by norm_num), ← Int.sub_emod, Int.add_sub_cancel]

/-! ### Generator output bounds -/

theorem mulberry32_out_mem (s : ℕ) : 0 ≤ (mulberry32 s).2 ∧ (mulberry32 s).2 < 1 := by
  unfold mulberry32
  set s1 := (s + 0x6d2b79f5) % 2 ^ 32 with hs1
  set t1 := (Nat.xor s1 (s1 / 2 ^ 15) * Nat.lor s1 1) % 2 ^ 32 with ht1
  set t2 := Nat.xor ((t1 + Nat.xor t1 (t1 / 2 ^ 7) * Nat.lor t1 61 % 2 ^ 32) % 2 ^ 32) t1 with ht2
  have h1 : t1 < 2 ^ 32 := Nat.mod_lt _ (by norm_num)
  have h2 : t2 < 2 ^ 32 := by
    apply Nat.xor_lt_two_pow (n := 32) (Nat.mod_lt _ (by norm_num)) h1
  have h3 : Nat.xor t2 (t2 / 2 ^ 14) < 2 ^ 32 := by
    apply Nat.xor_lt_two_pow (n := 32) h2
    calc t2 / 2 ^ 14 ≤ t2 := Nat.div_le_self _ _
      _ < 2 ^ 32 := h2
  have hpow : (0 : ℚ) < 2 ^ 32 := by norm_num
  constructor
  · exact div_nonneg (Nat.cast_nonneg _) (le_of_lt hpow)
  · rw [div_lt_one hpow]
    exact_mod_cast h3

theorem rngNth_zero (s : ℕ) : rngNth s 0 = (mulberry32 s).2 := rfl

theorem rngNth_succ (s n : ℕ) : rngNth s (n + 1) = rngNth (mulberry32 s).1 n := by
  unfold rngNth
  rw [Function.iterate_succ_apply]
  rfl

theorem rngNth_mem (s n : ℕ) : 0 ≤ rngNth s n ∧ rngNth s n < 1 := by
  unfold rngNth
  exact mulberry32_out_mem _

/-! ### Logits structure -/

theorem mkLogits_succ (c : ℤ) (s i n : ℕ) :
    mkLogits c s i (n + 1) =
      (-((|(i : ℤ) - c| : ℤ) : ℚ) * 1.8 + ((mulberry32 s).2 - 0.5) * 0.3)
        :: mkLogits c (mulberry32 s).1 (i + 1) n := rfl

theorem mkLogits_length (c : ℤ) (s i n : ℕ) : (mkLogits c s i n).length = n := by
  induction n generalizing s i with
  | zero => rfl
  | succ k ih =>
    rw [mkLogits_succ, List.length_cons, ih]

theorem mkLogits_getD (c : ℤ) (s i n k : ℕ) (hk : k < n) :
    (mkLogits c s i n).getD k 0 =
      -((|((i + k : ℕ) : ℤ) - c| : ℤ) : ℚ) * 1.8 + (rngNth s k - 0.5) * 0.3 := by
  induction n generalizing s i k with
  | zero => omega
  | succ p ih =>
    cases k with
    | zero =>
      rw [mkLogits_succ, rngNth_zero]
      simp
    | succ q =>
      have hq : q < p := by omega
      rw [mkLogits_succ]
      show (mkLogits c (mulberry32 s).1 (i + 1) p).getD q 0 = _
      rw [ih (mulberry32 s).1 (i + 1) q hq, rngNth_succ]
      have : i + 1 + q = i + (q + 1) := by omega
      rw [this]

/-! ### Argmax fold characterization -/

theorem buildArgmax_succ {α : Type} [LinearOrder α] (pAt : ℕ → α) (n : ℕ) :
    buildArgmax pAt (n + 1) = amStep pAt (buildArgmax pAt n) n := by
  unfold buildArgmax
  rw [List.range_succ, List.foldl_append, List.foldl_cons, List.foldl_nil]

/-- The fold returns the first index attaining the maximum: the result holds
the maximal value, and every earlier index is strictly below it. -/
theorem buildArgmax_spec {α : Type} [LinearOrder α] (pAt : ℕ → α) (n : ℕ) (hn : 1 ≤ n) :
    ∃ k, buildArgmax pAt n = (k, some (pAt k)) ∧ k < n ∧
      (∀ j, j < n → pAt j ≤ pAt k) ∧ (∀ j, j < k → pAt j < pAt k) := by
  induction n with
  | zero => omega
  | succ p ih =>
    rcases Nat.eq_zero_or_pos p with hp | hp
    · subst hp
      refine ⟨0, ?_, by omega, ?_, by omega⟩
      · unfold buildArgmax
        rw [List.range_succ, List.range_zero, List.nil_append, List.foldl_cons, List.foldl_nil]
        rfl
      · intro j hj
        interval_cases j
        exact le_refl _
    · obtain ⟨k, heq, hk, hmax, hfirst⟩ := ih hp
      have hstep : amStep pAt (k, some (pAt k)) p =
          if pAt k < pAt p then (p, some (pAt p)) else (k, some (pAt k)) := rfl
      rw [buildArgmax_succ, heq, hstep]
      by_cases hcmp : pAt k < pAt p
      · refine ⟨p, by rw [if_pos hcmp], by omega, ?_, ?_⟩
        · intro j hj
          rcases Nat.lt_or_ge j p with hjp | hjp
          · exact le_of_lt (lt_of_le_of_lt (hmax j hjp) hcmp)
          · have : j = p := by omega
            subst this
            exact le_refl _
        · intro j hj
          exact lt_of_le_of_lt (hmax j hj) hcmp
      · refine ⟨k, by rw [if_neg hcmp], by omega, ?_, hfirst⟩
        intro j hj
        rcases Nat.lt_or_ge j p with hjp | hjp
        · exact hmax j hjp
        · have : j = p := by omega
          subst this
          exact le_of_not_lt hcmp

/-! ### Softmax structure -/

theorem getD_map {α β : Type} (f : α → β) (l : List α) {j : ℕ} (hj : j < l.length)
    (d : β) (d' : α) : (l.map f).getD j d = f (l.getD j d') := by
  rw [List.getD_eq_getElem?_getD, List.getElem?_map, List.getElem?_eq_getElem hj,
    List.getD_eq_getElem?_getD, List.getElem?_eq_getElem hj]
  rfl

theorem softmax_eq (l : List ℚ) :
    softmax l = (l.map fun (v : ℚ) => Real.exp ((v : ℝ) - (listMax l : ℝ))).map
      (fun v => v / softmaxSum l) := by
  simp only [softmax, softmaxSum, foldl_add_eq_sum]

theorem softmax_length (l : List ℚ) : (softmax l).length = l.length := by
  rw [softmax_eq]
  simp

theorem softmax_getD (l : List ℚ) {j : ℕ} (hj : j < l.length) :
    (softmax l).getD j 0 =
      Real.exp ((l.getD j 0 : ℝ) - (listMax l : ℝ)) / softmaxSum l := by
  rw [softmax_eq, getD_map _ _ (by simpa using hj) 0 0, getD_map _ _ hj 0 0]

theorem softmaxSum_pos (l : List ℚ) (hl : l ≠ []) : 0 < softmaxSum l := by
  apply List.sum_pos
  · intro x hx
    obtain ⟨v, _, rfl⟩ := List.mem_map.mp hx
    exact Real.exp_pos _
  · intro h
    cases l with
    | nil => exact hl rfl
    | cons a t => simp at h

theorem softmax_sum_eq_one (l : List ℚ) (hl : l ≠ []) : (softmax l).sum = 1 := by
  rw [softmax_eq, list_sum_map_div]
  exact div_self (ne_of_gt (softmaxSum_pos l hl))

/-! ### Result building structure -/

theorem classes_length : TURBIDITY_CLASSES.length = 6 := rfl

theorem buildResult_probabilities {α : Type} [LinearOrder α] [Zero α] (probs : List α) :
    (buildResult probs).probabilities =
      (List.range 6).map fun i =>
        ⟨TURBIDITY_CLASSES.getD i .ultra_cloudy,
         TURBIDITY_LABELS (TURBIDITY_CLASSES.getD i .ultra_cloudy), probs.getD i 0⟩ := rfl

theorem buildResult_probability_values {α : Type} [LinearOrder α] [Zero α] (probs : List α) :
    (buildResult probs).probabilities.map ClassProbability.probability =
      (List.range 6).map fun i => probs.getD i 0 := by
  rw [buildResult_probabilities, List.map_map]
  rfl

theorem buildResult_class_values {α : Type} [LinearOrder α] [Zero α] (probs : List α) :
    (buildResult probs).probabilities.map ClassProbability.className = TURBIDITY_CLASSES := by
  rw [buildResult_probabilities, List.map_map]
  rfl

/-! ### Hash equivalence -/

theorem toInt32_shift_step (h r : ℤ) :
    toInt32 (toInt32 (h * 32) - h + r) = toInt32 (h * 32 - h + r) := by
  have h1 : toInt32 (h * 32) - h + r = toInt32 (h * 32) + (-h + r) := by ring
  have h2 : h * 32 - h + r = h * 32 + (-h + r) := by ring
  rw [h1, h2, toInt32_idem_add]

/-! ### Claim theorems -/

/-- Claim C5: `hashTensor` samples the tensor at stride `max(1, ⌊length/256⌋)`,
accumulates `hash = (hash << 5) - hash + round((value + 3) * 10000)` with
32-bit signed wraparound at each step and returns the absolute value (the
spec-worded `hashTensorSpec`); the result is non-negative, and identical
tensors always receive identical seeds. -/
theorem seed_derivation_spec (t t' : List ℚ) (heq : t = t') :
    hashTensor t = hashTensorSpec t ∧ 0 ≤ hashTensor t ∧ hashTensor t = hashTensor t' := by
  subst heq
  refine ⟨?_, ?_, rfl⟩
  · simp only [hashTensor, hashTensorSpec]
    rw [List.foldl_map]
    have hfun :
        (fun (h : ℤ) (j : ℕ) =>
            toInt32 (toInt32 (h * 32) - h +
              jsRound ((t.getD (j * max 1 (t.length / 256)) 0 + 3) * 10000))) =
          fun (h : ℤ) (j : ℕ) =>
            toInt32 (h * 32 - h +
              jsRound ((t.getD (j * max 1 (t.length / 256)) 0 + 3) * 10000)) := by
      funext h j
      exact toInt32_shift_step h _
    rw [hfun]
  · simp only [hashTensor]
    exact abs_nonneg _

/-- Witness for C5 at the concrete tensor `[1, 2, 3]`. -/
theorem seed_derivation_spec_witness :
    hashTensor [1, 2, 3] = hashTensorSpec [1, 2, 3] ∧ 0 ≤ hashTensor [1, 2, 3] ∧
      hashTensor [1, 2, 3] = hashTensor [1, 2, 3] :=
  seed_derivation_spec [1, 2, 3] [1, 2, 3] rfl

theorem jsRound_natCast (p : ℕ) : jsRound (p : ℚ) = p := by
  unfold jsRound
  have : ((p : ℚ) + 1 / 2) = ((p : ℤ) : ℚ) + 1 / 2 := by push_cast; ring
  rw [this, Int.floor_int_add]
  norm_num

theorem getD_mem {α : Type} (l : List α) {k : ℕ} (hk : k < l.length) (d : α) :
    l.getD k d ∈ l := by
  rw [List.getD_eq_getElem?_getD, List.getElem?_eq_getElem hk]
  exact List.getElem_mem hk

/-- Claim C8: on a 224×224×3 buffer whose three channel sums (hence means) are
equal, the gray-world balancer computes scale factors of exactly 1 for all
three channels and returns the buffer unchanged. -/
theorem gray_world_identity (buf : List ℕ)
    (hlen : buf.length = 224 * 224 * 3)
    (hbytes : ∀ b ∈ buf, b ≤ 255)
    (hRG : chanSum buf 0 = chanSum buf 1)
    (hGB : chanSum buf 1 = chanSum buf 2) :
    gwScale buf 0 = 1 ∧ gwScale buf 1 = 1 ∧ gwScale buf 2 = 1 ∧
      applyGrayWorld buf = buf := by
  have hm1 : gwMean buf 1 = gwMean buf 0 := by
    unfold gwMean
    rw [hRG]
  have hm2 : gwMean buf 2 = gwMean buf 0 := by
    unfold gwMean
    rw [← hGB, hRG]
  have hpos : 0 < gwMean buf 0 := by
    unfold gwMean
    have hnn : (0 : ℚ) ≤ (chanSum buf 0 : ℚ) / ((buf.length : ℚ) / 3) := by
      apply div_nonneg (Nat.cast_nonneg _)
      rw [hlen]
      norm_num
    linarith
  have hscale : ∀ c, gwMean buf c = gwMean buf 0 → gwScale buf c = 1 := by
    intro c hc
    unfold gwScale
    rw [hc, hm1, hm2]
    have : (gwMean buf 0 + gwMean buf 0 + gwMean buf 0) / 3 = gwMean buf 0 := by ring
    rw [this]
    exact div_self (ne_of_gt hpos)
  have hs0 : gwScale buf 0 = 1 := hscale 0 rfl
  have hs1 : gwScale buf 1 = 1 := hscale 1 hm1
  have hs2 : gwScale buf 2 = 1 := hscale 2 hm2
  refine ⟨hs0, hs1, hs2, ?_⟩
  unfold applyGrayWorld
  conv_rhs => rw [← map_range_getD_self buf 0]
  apply List.map_congr_left
  intro k hk
  have hklt : k < buf.length := List.mem_range.mp hk
  have hsc : gwScale buf (k % 3) = 1 := by
    have h3 : k % 3 = 0 ∨ k % 3 = 1 ∨ k % 3 = 2 := by omega
    rcases h3 with h | h | h <;> rw [h] <;> assumption
  rw [hsc, mul_one, jsRound_natCast]
  have hb : buf.getD k 0 ≤ 255 := hbytes _ (getD_mem buf hklt 0)
  omega

/-- Witness for C8 at the uniform mid-gray buffer (all bytes 128). -/
theorem gray_world_identity_witness :
    (List.replicate (224 * 224 * 3) 128).length = 224 * 224 * 3 ∧
      gwScale (List.replicate (224 * 224 * 3) 128) 0 = 1 ∧
      applyGrayWorld (List.replicate (224 * 224 * 3) 128) =
        List.replicate (224 * 224 * 3) 128 := by
  have hlen : (List.replicate (224 * 224 * 3) 128).length = 224 * 224 * 3 :=
    List.length_replicate _ _
  have hbytes : ∀ b ∈ List.replicate (224 * 224 * 3) 128, b ≤ 255 := by
    intro b hb
    have := List.eq_of_mem_replicate hb
    omega
  have hsum : ∀ c, c < 3 → chanSum (List.replicate (224 * 224 * 3) 128) c = 50176 * 128 := by
    intro c hc
    unfold chanSum
    rw [hlen]
    have hcard : (224 * 224 * 3 + 2) / 3 = 50176 := by norm_num
    rw [hcard]
    rw [Finset.sum_congr rfl fun j hj => ?_]
    · rw [Finset.sum_const, Finset.card_range, smul_eq_mul]
    · have hjlt : j < 50176 := Finset.mem_range.mp hj
      exact getD_replicate 128 (by omega) 0
  have h := gray_world_identity (List.replicate (224 * 224 * 3) 128) hlen hbytes
    (by rw [hsum 0 (by omega), hsum 1 (by omega)])
    (by rw [hsum 1 (by omega), hsum 2 (by omega)])
  exact ⟨hlen, h.1, h.2.2.2⟩

/-- Claim C9: for a 256×256 source both crop offsets are 16, and the cropped
output is a pure per-row copy: output pixel `(x, y)` equals source pixel
`(x + 16, y + 16)` for every channel. -/
theorem center_crop_correct (src : List ℕ) (x y ch : ℕ)
    (hx : x < 224) (hy : y < 224) (hch : ch < 3) :
    cropOffset 256 = 16 ∧
    (cropImage src 256 256).getD ((y * 224 + x) * 3 + ch) 0 =
      src.getD (((y + 16) * 256 + (x + 16)) * 3 + ch) 0 := by
  constructor
  · rfl
  · simp only [cropImage, TARGET_SIZE]
    have hidx : (y * 224 + x) * 3 + ch = y * (224 * 3) + (x * 3 + ch) := by ring
    rw [hidx]
    rw [flatMap_range_getD 224 (224 * 3)
      (fun yy => (List.range (224 * 3)).map fun k =>
        src.getD (((cropOffset 256 + yy) * 256 + cropOffset 256) * 3 + k) 0)
      (fun i => by simp) hy (by omega) 0]
    rw [getD_map_range _ (by omega) 0]
    have hco : cropOffset 256 = 16 := rfl
    have harith : ((cropOffset 256 + y) * 256 + cropOffset 256) * 3 + (x * 3 + ch) =
        ((y + 16) * 256 + (x + 16)) * 3 + ch := by
      rw [hco]
      ring
    rw [harith]

/-- Witness for C9 at a concrete source buffer and pixel (0, 0), channel 0. -/
theorem center_crop_correct_witness :
    cropOffset 256 = 16 ∧
    (cropImage (List.replicate (256 * 256 * 3) 9) 256 256).getD ((0 * 224 + 0) * 3 + 0) 0 =
      (List.replicate (256 * 256 * 3) 9).getD (((0 + 16) * 256 + (0 + 16)) * 3 + 0) 0 :=
  center_crop_correct (List.replicate (256 * 256 * 3) 9) 0 0 0
    (by norm_num) (by norm_num) (by norm_num)

theorem normalizeTensor_length (balanced : List ℕ) :
    (normalizeTensor balanced).length = 3 * (224 * 224) := by
  unfold normalizeTensor
  rw [flatMap_range_length 3 totalPixels _ (fun i => by simp)]
  rfl

/-- Claim C10: the pipeline fails exactly when decoding fails, and then with
the single error kind `ImageProcessingFailed` carrying the decoder message;
once a raw buffer is decoded, the remaining stages always succeed and the
full 3·224·224 tensor is produced (never a partial one). -/
theorem preprocess_error_behaviour (msg : String) (raw : RawImage) :
    preprocessImage (.error msg) = .error (AppError.imageProcessing msg) ∧
    (AppError.imageProcessing msg).code = .IMAGE_PROCESSING_FAILED ∧
    (AppError.imageProcessing msg).message = "Image processing failed: " ++ msg ∧
    ∃ img, preprocessImage (.ok raw) = .ok img ∧
      img.data.length = 3 * (224 * 224) ∧
      img.data = normalizeTensor (applyGrayWorld (cropImage raw.data raw.width raw.height)) := by
  refine ⟨rfl, rfl, rfl, ?_⟩
  refine ⟨⟨normalizeTensor (applyGrayWorld (cropImage raw.data raw.width raw.height)),
    3, TARGET_SIZE, TARGET_SIZE⟩, rfl, ?_, rfl⟩
  exact normalizeTensor_length _

theorem predictLogits_length (im : PreprocessedImage) : (predictLogits im).length = 6 := by
  unfold predictLogits
  rw [mkLogits_length, classes_length]

theorem predictProbs_length (im : PreprocessedImage) : (predictProbs im).length = 6 := by
  unfold predictProbs
  rw [softmax_length, predictLogits_length]

theorem predictProbs_sum (im : PreprocessedImage) : (predictProbs im).sum = 1 := by
  unfold predictProbs
  apply softmax_sum_eq_one
  intro hnil
  have := predictLogits_length im
  rw [hnil] at this
  simp at this

theorem predict_probability_values (im : PreprocessedImage) :
    (predict im).probabilities.map ClassProbability.probability = predictProbs im := by
  have h1 : (predict im).probabilities.map ClassProbability.probability =
      (List.range 6).map fun j => (predictProbs im).getD j 0 :=
    buildResult_probability_values (predictProbs im)
  rw [h1, ← predictProbs_length im]
  exact map_range_getD_self _ 0

/-- Claim C2: a successfully preprocessed image yields exactly 3·224·224
tensor entries in channel-first layout with
`tensor[c*224*224 + i] = (balanced[i*3 + c]/255 - mean[c]) / std[c]`, and
`predict` on that tensor returns six probabilities whose sum is within 1e-6
of 1 (in the exact real model the sum is exactly 1). -/
theorem tensor_layout_and_probability_sum (balanced : List ℕ) (c i : ℕ)
    (hc : c < 3) (hi : i < 224 * 224) :
    (normalizeTensor balanced).length = 3 * (224 * 224) ∧
    (normalizeTensor balanced).getD (c * (224 * 224) + i) 0 =
      ((balanced.getD (i * 3 + c) 0 : ℚ) / 255 - IMAGENET_MEAN c) / IMAGENET_STD c ∧
    ((predict ⟨normalizeTensor balanced, 3, 224, 224⟩).probabilities.map
        ClassProbability.probability).length = 6 ∧
    |((predict ⟨normalizeTensor balanced, 3, 224, 224⟩).probabilities.map
        ClassProbability.probability).sum - 1| ≤ 1 / 1000000 := by
  refine ⟨normalizeTensor_length balanced, ?_, ?_, ?_⟩
  · unfold normalizeTensor
    have htp : totalPixels = 224 * 224 := rfl
    rw [← htp] at hi ⊢
    rw [flatMap_range_getD 3 totalPixels _ (fun j => by simp) hc hi 0]
    rw [getD_map_range _ hi 0]
  · rw [predict_probability_values, predictProbs_length]
  · rw [predict_probability_values, predictProbs_sum]
    norm_num

/-- Witness for C2 at the empty balanced buffer, channel 0, pixel 0. -/
theorem tensor_layout_and_probability_sum_witness :
    (normalizeTensor []).length = 3 * (224 * 224) ∧
    (normalizeTensor []).getD (0 * (224 * 224) + 0) 0 =
      ((([] : List ℕ).getD (0 * 3 + 0) 0 : ℚ) / 255 - IMAGENET_MEAN 0) / IMAGENET_STD 0 ∧
    ((predict ⟨normalizeTensor [], 3, 224, 224⟩).probabilities.map
        ClassProbability.probability).length = 6 ∧
    |((predict ⟨normalizeTensor [], 3, 224, 224⟩).probabilities.map
        ClassProbability.probability).sum - 1| ≤ 1 / 1000000 :=
  tensor_layout_and_probability_sum [] 0 0 (by norm_num) (by norm_num)

/-- Claim C1: the full pipeline is deterministic: byte-identical decoded input
gives identical `PredictionResult`s (all fields, all probabilities), and
`predict` is a pure function of the tensor and shape — in particular the
generator seed depends only on the tensor contents. -/
theorem pipeline_deterministic (d1 d2 : Except String RawImage)
    (im1 im2 : PreprocessedImage) (hd : d1 = d2) (hdata : im1.data = im2.data)
    (hh : im1.height = im2.height) (hw : im1.width = im2.width) :
    Except.map predict (preprocessImage d1) = Except.map predict (preprocessImage d2) ∧
    predict im1 = predict im2 ∧
    hashTensor im1.data = hashTensor im2.data := by
  subst hd
  refine ⟨rfl, ?_, by rw [hdata]⟩
  obtain ⟨data1, ch1, h1, w1⟩ := im1
  obtain ⟨data2, ch2, h2, w2⟩ := im2
  simp only at hdata hh hw
  subst hdata
  subst hh
  subst hw
  rfl

/-- Witness for C1 at a concrete decoded input and concrete tensors. -/
theorem pipeline_deterministic_witness :
    Except.map predict (preprocessImage (.ok ⟨List.replicate (256 * 256 * 3) 4, 256, 256⟩)) =
      Except.map predict (preprocessImage (.ok ⟨List.replicate (256 * 256 * 3) 4, 256, 256⟩)) ∧
    predict ⟨[1, 2], 3, 224, 224⟩ = predict ⟨[1, 2], 3, 224, 224⟩ ∧
    hashTensor (⟨[1, 2], 3, 224, 224⟩ : PreprocessedImage).data =
      hashTensor (⟨[1, 2], 3, 224, 224⟩ : PreprocessedImage).data :=
  pipeline_deterministic _ _ ⟨[1, 2], 3, 224, 224⟩ ⟨[1, 2], 3, 224, 224⟩ rfl rfl rfl rfl

theorem brightness_uniform (q : ℚ) :
    brightnessOf (uniformImage q) = (q * (678 / 1000) + 1347 / 1000) / 3 := by
  unfold brightnessOf uniformImage
  simp only
  have hin : ∀ c ∈ Finset.range 3,
      (∑ i ∈ Finset.range (224 * 224),
          ((List.replicate (3 * (224 * 224)) q).getD (c * (224 * 224) + i) 0 * IMAGENET_STD c
            + IMAGENET_MEAN c)) / ((224 * 224 : ℕ) : ℚ) =
        q * IMAGENET_STD c + IMAGENET_MEAN c := by
    intro c hc
    have hc3 : c < 3 := Finset.mem_range.mp hc
    have heach : ∀ i ∈ Finset.range (224 * 224),
        ((List.replicate (3 * (224 * 224)) q).getD (c * (224 * 224) + i) 0 * IMAGENET_STD c
          + IMAGENET_MEAN c) = q * IMAGENET_STD c + IMAGENET_MEAN c := by
      intro i hi
      have hi3 : i < 224 * 224 := Finset.mem_range.mp hi
      rw [getD_replicate q (by omega) 0]
    rw [Finset.sum_congr rfl heach, Finset.sum_const, Finset.card_range, nsmul_eq_mul,
      mul_comm, mul_div_assoc, div_self (by norm_num), mul_one]
  rw [Finset.sum_congr rfl hin, Finset.sum_range_succ, Finset.sum_range_succ,
    Finset.sum_range_succ, Finset.sum_range_zero]
  simp only [IMAGENET_STD, IMAGENET_MEAN]
  norm_num
  ring

theorem center_uniform_dark : centerOf (uniformImage (-2)) = 5 := by
  unfold centerOf
  rw [brightness_uniform, classes_length]
  norm_num [jsRound]

theorem center_uniform_bright : centerOf (uniformImage 2) = 0 := by
  unfold centerOf
  rw [brightness_uniform, classes_length]
  norm_num [jsRound]

/-- Counterexample to claim C3 as stated: the uniform tensor with value −2 has
strictly lower reconstructed brightness than the one with value 2, yet its
center index is 5 while the brighter one gets 0 — darker images map to
HIGHER center indices, not lower ones. -/
theorem brightness_center_monotone_cex :
    brightnessOf (uniformImage (-2)) < brightnessOf (uniformImage 2) ∧
    ¬(centerOf (uniformImage (-2)) ≤ centerOf (uniformImage 2)) := by
  constructor
  · rw [brightness_uniform, brightness_uniform]
    norm_num
  · rw [center_uniform_dark, center_uniform_bright]
    norm_num

/-- Claim C3 (amended): ignoring the jitter, the center index is antitone in
reconstructed brightness — of two tensors, the one with lower brightness maps
to a center index greater than or equal to that of the brighter one (darker
images map to higher, clearer class indices). -/
theorem center_antitone_in_brightness (im1 im2 : PreprocessedImage)
    (h : brightnessOf im1 ≤ brightnessOf im2) : centerOf im2 ≤ centerOf im1 := by
  unfold centerOf
  apply min_le_min (le_refl _)
  apply max_le_max (le_refl _)
  unfold jsRound
  apply Int.floor_le_floor
  have h6 : ((TURBIDITY_CLASSES.length : ℚ) - 1) = 5 := by
    rw [classes_length]
    norm_num
  rw [h6]
  linarith

/-- Witness for the amended C3 at a concrete pair of tensors. -/
theorem center_antitone_in_brightness_witness :
    brightnessOf (uniformImage 0) ≤ brightnessOf (uniformImage 0) ∧
      centerOf (uniformImage 0) ≤ centerOf (uniformImage 0) :=
  ⟨le_refl _, center_antitone_in_brightness (uniformImage 0) (uniformImage 0) (le_refl _)⟩

/-- Claim C4: `predict` reconstructs brightness as the mean of
`value * std[c] + mean[c]` over all 3 channels and 224·224 positions, sets
`center = clamp(round((1 - brightness) * 5), 0, 5)`, and produces
`logit_i = -|i - center| * 1.8 + (rng() - 0.5) * 0.3` for each class index in
canonical order, advancing the seeded generator exactly once per class
(`rngNth` is the output of the i-th successive call). -/
theorem scorer_characterization (im : PreprocessedImage) (i : ℕ)
    (hh : im.height = 224) (hw : im.width = 224) (hi : i < 6) :
    brightnessOf im = (∑ c ∈ Finset.range 3, ∑ p ∈ Finset.range (224 * 224),
        (im.data.getD (c * (224 * 224) + p) 0 * IMAGENET_STD c + IMAGENET_MEAN c))
      / (3 * (224 * 224)) ∧
    centerOf im = min 5 (max 0 (jsRound ((1 - brightnessOf im) * 5))) ∧
    (predictLogits im).length = 6 ∧
    (predictLogits im).getD i 0 =
      -((|(i : ℤ) - centerOf im| : ℤ) : ℚ) * 1.8 +
        (rngNth (rngInitOf im) i - 0.5) * 0.3 := by
  refine ⟨?_, ?_, predictLogits_length im, ?_⟩
  · simp only [brightnessOf]
    rw [hh, hw, ← Finset.sum_div, div_div]
    congr 1
    push_cast
    ring
  · unfold centerOf
    rw [classes_length]
    norm_num
  · unfold predictLogits
    rw [mkLogits_getD _ _ 0 _ i (by rw [classes_length]; exact hi)]
    norm_num

/-- Witness for C4 at the uniform zero tensor and class index 0. -/
theorem scorer_characterization_witness :
    brightnessOf (uniformImage 0) =
      (∑ c ∈ Finset.range 3, ∑ p ∈ Finset.range (224 * 224),
        ((uniformImage 0).data.getD (c * (224 * 224) + p) 0 * IMAGENET_STD c
          + IMAGENET_MEAN c)) / (3 * (224 * 224)) ∧
    centerOf (uniformImage 0) =
      min 5 (max 0 (jsRound ((1 - brightnessOf (uniformImage 0)) * 5))) ∧
    (predictLogits (uniformImage 0)).length = 6 ∧
    (predictLogits (uniformImage 0)).getD 0 0 =
      -((|(0 : ℤ) - centerOf (uniformImage 0)| : ℤ) : ℚ) * 1.8 +
        (rngNth (rngInitOf (uniformImage 0)) 0 - 0.5) * 0.3 := by
  have h := scorer_characterization (uniformImage 0) 0 rfl rfl (by norm_num)
  exact_mod_cast h

theorem centerOf_bounds (im : PreprocessedImage) : 0 ≤ centerOf im ∧ centerOf im ≤ 5 := by
  unfold centerOf
  rw [classes_length]
  constructor
  · apply le_min (by norm_num)
    exact le_max_left 0 _
  · calc min ((6 : ℕ) - 1 : ℤ) _ ≤ ((6 : ℕ) - 1 : ℤ) := min_le_left _ _
      _ = 5 := by norm_num

theorem predictLogits_getD (im : PreprocessedImage) (j : ℕ) (hj : j < 6) :
    (predictLogits im).getD j 0 =
      -((|(j : ℤ) - centerOf im| : ℤ) : ℚ) * 1.8 +
        (rngNth (rngInitOf im) j - 0.5) * 0.3 := by
  unfold predictLogits
  rw [mkLogits_getD _ _ 0 _ j (by rw [classes_length]; exact hj)]
  norm_num

theorem predictLogits_center_lt (im : PreprocessedImage) (j : ℕ) (hj : j < 6)
    (hne : (j : ℤ) ≠ centerOf im) :
    (predictLogits im).getD j 0 < (predictLogits im).getD (centerOf im).toNat 0 := by
  have hc := centerOf_bounds im
  have hcn : (((centerOf im).toNat : ℤ)) = centerOf im := Int.toNat_of_nonneg hc.1
  have hcn6 : (centerOf im).toNat < 6 := by omega
  rw [predictLogits_getD im j hj, predictLogits_getD im (centerOf im).toNat hcn6]
  have hzero : |(((centerOf im).toNat : ℕ) : ℤ) - centerOf im| = 0 := by
    rw [hcn]
    simp
  have hone : (1 : ℤ) ≤ |(j : ℤ) - centerOf im| := Int.one_le_abs (sub_ne_zero.mpr hne)
  have honeQ : (1 : ℚ) ≤ ((|(j : ℤ) - centerOf im| : ℤ) : ℚ) := by exact_mod_cast hone
  have hrj := rngNth_mem (rngInitOf im) j
  have hrc := rngNth_mem (rngInitOf im) (centerOf im).toNat
  rw [hzero]
  push_cast at honeQ ⊢
  linarith [hrj.1, hrj.2, hrc.1, hrc.2, honeQ]

theorem predictProbs_center_lt (im : PreprocessedImage) (j : ℕ) (hj : j < 6)
    (hne : (j : ℤ) ≠ centerOf im) :
    (predictProbs im).getD j 0 < (predictProbs im).getD (centerOf im).toNat 0 := by
  have hc := centerOf_bounds im
  have hcn6 : (centerOf im).toNat < 6 := by omega
  have hlen := predictLogits_length im
  have hnil : predictLogits im ≠ [] := by
    intro h
    rw [h] at hlen
    simp at hlen
  unfold predictProbs
  rw [softmax_getD _ (by rw [hlen]; exact hj), softmax_getD _ (by rw [hlen]; exact hcn6)]
  apply (div_lt_div_iff_of_pos_right (softmaxSum_pos _ hnil)).mpr
  apply Real.exp_lt_exp.mpr
  apply sub_lt_sub_right
  exact_mod_cast predictLogits_center_lt im j hj hne

/-- Claim C6 (implicit): the jitter can never move the argmax away from the
brightness-derived center: each jitter term has magnitude at most 0.15 while
adjacent logits differ by 1.8, and softmax is strictly monotone, so the
predicted class is always `TURBIDITY_CLASSES[center]`. -/
theorem predicted_class_is_center (im : PreprocessedImage) :
    (predict im).predictedClass =
      TURBIDITY_CLASSES.getD (centerOf im).toNat .ultra_cloudy := by
  have hc := centerOf_bounds im
  have hcn6 : (centerOf im).toNat < 6 := by omega
  obtain ⟨k, heq, hk6, hmax, hfirst⟩ := buildArgmax_spec
    (fun i2 => (predictProbs im).getD i2 0) TURBIDITY_CLASSES.length
    (by rw [classes_length]; omega)
  have hpredicted : (predict im).predictedClass = TURBIDITY_CLASSES.getD k .ultra_cloudy := by
    show (buildResult (predictProbs im)).predictedClass = _
    simp only [buildResult, heq]
  have hkcn : k = (centerOf im).toNat := by
    by_contra hne
    have hk6' : k < 6 := by rw [classes_length] at hk6; exact hk6
    have hk_ne : (k : ℤ) ≠ centerOf im := by omega
    have h1 : (predictProbs im).getD k 0 < (predictProbs im).getD (centerOf im).toNat 0 :=
      predictProbs_center_lt im k hk6' hk_ne
    have h2 : (predictProbs im).getD (centerOf im).toNat 0 ≤ (predictProbs im).getD k 0 :=
      hmax (centerOf im).toNat (by rw [classes_length]; omega)
    linarith
  rw [hpredicted, hkcn]

/-- Claim C7: for every 6-entry probability vector, `buildResult` selects the
argmax with first occurrence winning ties (the running maximum only updates on
strictly greater values), sets confidence to that maximal probability, the
label and NTU range to those of the predicted class, and reports the full
6-entry probability list in canonical class order (not sorted). -/
theorem build_result_characterization (probs : List ℝ) (j : ℕ)
    (h6 : probs.length = 6) (hj : j < 6) :
    maxIdxOf probs < 6 ∧
    probs.getD j 0 ≤ probs.getD (maxIdxOf probs) 0 ∧
    (j < maxIdxOf probs → probs.getD j 0 < probs.getD (maxIdxOf probs) 0) ∧
    (buildResult probs).predictedClass =
      TURBIDITY_CLASSES.getD (maxIdxOf probs) .ultra_cloudy ∧
    (buildResult probs).confidence = probs.getD (maxIdxOf probs) 0 ∧
    (buildResult probs).label = TURBIDITY_LABELS ((buildResult probs).predictedClass) ∧
    (buildResult probs).ntuRange = NTU_RANGES ((buildResult probs).predictedClass) ∧
    (buildResult probs).probabilities.map ClassProbability.className = TURBIDITY_CLASSES ∧
    (buildResult probs).probabilities.map ClassProbability.probability = probs ∧
    (buildResult probs).probabilities.map ClassProbability.label =
      TURBIDITY_CLASSES.map TURBIDITY_LABELS := by
  obtain ⟨k, heq, hk6, hmax, hfirst⟩ := buildArgmax_spec
    (fun i => probs.getD i 0) TURBIDITY_CLASSES.length (by rw [classes_length]; omega)
  rw [classes_length] at hk6
  have hmk : maxIdxOf probs = k := by
    unfold maxIdxOf
    rw [heq]
  refine ⟨by omega, ?_, ?_, ?_, ?_, ?_, ?_, buildResult_class_values probs, ?_, ?_⟩
  · rw [hmk]
    exact hmax j (by rw [classes_length]; omega)
  · rw [hmk]
    intro hlt
    exact hfirst j hlt
  · rw [hmk]
    simp only [buildResult, heq]
  · rw [hmk]
    simp only [buildResult, heq, Option.getD_some]
  · simp only [buildResult]
  · simp only [buildResult]
  · rw [buildResult_probability_values, ← h6]
    exact map_range_getD_self _ 0
  · rw [buildResult_probabilities, List.map_map]
    rfl

/-- Witness for C7 at a concrete probability vector with a tie between the
first two classes. -/
theorem build_result_characterization_witness :
    maxIdxOf ([1/2, 1/2, 0, 0, 0, 0] : List ℝ) < 6 ∧
    ([1/2, 1/2, 0, 0, 0, 0] : List ℝ).getD 1 0 ≤
      ([1/2, 1/2, 0, 0, 0, 0] : List ℝ).getD (maxIdxOf ([1/2, 1/2, 0, 0, 0, 0] : List ℝ)) 0 ∧
    (1 < maxIdxOf ([1/2, 1/2, 0, 0, 0, 0] : List ℝ) →
      ([1/2, 1/2, 0, 0, 0, 0] : List ℝ).getD 1 0 <
        ([1/2, 1/2, 0, 0, 0, 0] : List ℝ).getD (maxIdxOf ([1/2, 1/2, 0, 0, 0, 0] : List ℝ)) 0) ∧
    (buildResult ([1/2, 1/2, 0, 0, 0, 0] : List ℝ)).predictedClass =
      TURBIDITY_CLASSES.getD (maxIdxOf ([1/2, 1/2, 0, 0, 0, 0] : List ℝ)) .ultra_cloudy ∧
    (buildResult ([1/2, 1/2, 0, 0, 0, 0] : List ℝ)).confidence =
      ([1/2, 1/2, 0, 0, 0, 0] : List ℝ).getD (maxIdxOf ([1/2, 1/2, 0, 0, 0, 0] : List ℝ)) 0 ∧
    (buildResult ([1/2, 1/2, 0, 0, 0, 0] : List ℝ)).label =
      TURBIDITY_LABELS ((buildResult ([1/2, 1/2, 0, 0, 0, 0] : List ℝ)).predictedClass) ∧
    (buildResult ([1/2, 1/2, 0, 0, 0, 0] : List ℝ)).ntuRange =
      NTU_RANGES ((buildResult ([1/2, 1/2, 0, 0, 0, 0] : List ℝ)).predictedClass) ∧
    (buildResult ([1/2, 1/2, 0, 0, 0, 0] : List ℝ)).probabilities.map
      ClassProbability.className = TURBIDITY_CLASSES ∧
    (buildResult ([1/2, 1/2, 0, 0, 0, 0] : List ℝ)).probabilities.map
      ClassProbability.probability = ([1/2, 1/2, 0, 0, 0, 0] : List ℝ) ∧
    (buildResult ([1/2, 1/2, 0, 0, 0, 0] : List ℝ)).probabilities.map
      ClassProbability.label = TURBIDITY_CLASSES.map TURBIDITY_LABELS :=
  build_result_characterization ([1/2, 1/2, 0, 0, 0, 0] : List ℝ) 1 rfl (by norm_num)

end Turbidity
